import Mathlib

/-!
nettools: a reachability report (ping series, port checks).

A shallow embedding of `src/main.go` and of the Go library behaviour it relies on
(`strconv`, `regexp`, `strings.Repeat`, IEEE-754 binary64 arithmetic), followed by
theorems about argument handling, the latency series, the latency table and the
port tables.

Conventions.
* Go `string` values are modelled by `String`; text scanning works on `List Char`.
  The only pattern involved is pure ASCII, so scanning characters and scanning
  bytes agree.
* Go `int` is the 64-bit signed integer; values are `Int` with explicit range tests.
* Go `float64` is modelled by `F64`: signed zeros, subnormals, infinities, NaN and
  round-to-nearest-even after every operation.
* The network, the clock, the `ping` subprocess and the memory the run can obtain are
  fields of `World`.
-/

set_option maxRecDepth 1000000
set_option exponentiation.threshold 5000

namespace NetTools

/-! ## IEEE-754 binary64 -/

/-- Go `float64`. `fin neg m e` is the finite value `(-1)^neg * m * 2^e`; the values
built by `roundNE` are canonical: `m < 2^53`, `-1074 ≤ e ≤ 971`, and `2^52 ≤ m`
unless `e = -1074` (subnormals and zeros). -/
inductive F64 where
  | nan : F64
  | inf (neg : Bool) : F64
  | fin (neg : Bool) (m : Nat) (e : Int) : F64
  deriving DecidableEq, Repr

namespace F64

/-- Floor of the binary logarithm, by halving. -/
def log2Fuel : Nat → Nat → Nat
  | 0, _ => 0
  | fuel + 1, n => if n < 2 then 0 else log2Fuel fuel (n / 2) + 1

/-- The integer `l` with `2^l ≤ num / den < 2^(l+1)`, for `0 < num` and `0 < den`. -/
def floorLog2 (num den : Nat) : Int :=
  if den ≤ num then (log2Fuel (num / den) (num / den) : Int)
  else -((log2Fuel ((den - 1) / num) ((den - 1) / num) : Int) + 1)

/-- Mantissa and exponent of the binary64 nearest to the positive rational `num / den`,
ties to even, with gradual underflow; the exponent exceeds 971 on overflow. -/
def roundParts (num den : Nat) : Nat × Int :=
  let e : Int := max (floorLog2 num den - 52) (-1074)
  let n : Nat := num * 2 ^ (-e).toNat
  let d : Nat := den * 2 ^ e.toNat
  let q : Nat := n / d
  let r : Nat := n % d
  let m : Nat := if d < 2 * r ∨ (2 * r = d ∧ q % 2 = 1) then q + 1 else q
  if m = 2 ^ 53 then (2 ^ 52, e + 1) else (m, e)

/-- Rounds the exact non-negative rational `num / den` (`0 < den`) to binary64,
ties to even, with gradual underflow and overflow to infinity; `neg` is the sign. -/
def roundNE (neg : Bool) (num den : Nat) : F64 :=
  if num = 0 then fin neg 0 (-1074)
  else if 971 < (roundParts num den).2 then inf neg
  else fin neg (roundParts num den).1 (roundParts num den).2

/-- Positive zero, the zero value of a Go `float64` variable. -/
def zero : F64 := fin false 0 (-1074)

/-- Conversion `float64(n)` of an integer. -/
def ofInt (n : Int) : F64 := roundNE (decide (n < 0)) n.natAbs 1

/-- The signed integer `(-1)^neg * m * 2^k`. -/
def scaled (neg : Bool) (m : Nat) (k : Int) : Int :=
  if neg then -((m * 2 ^ k.toNat : Nat) : Int) else ((m * 2 ^ k.toNat : Nat) : Int)

/-- Float addition `x + y`. -/
def add : F64 → F64 → F64
  | nan, _ => nan
  | _, nan => nan
  | inf a, inf b => if a = b then inf a else nan
  | inf a, fin _ _ _ => inf a
  | fin _ _ _, inf b => inf b
  | fin s1 m1 e1, fin s2 m2 e2 =>
    let e : Int := min e1 e2
    let s : Int := scaled s1 m1 (e1 - e) + scaled s2 m2 (e2 - e)
    if s = 0 then fin (s1 && s2) 0 (-1074)
    else roundNE (decide (s < 0)) (s.natAbs * 2 ^ e.toNat) (2 ^ (-e).toNat)

/-- Float multiplication `x * y`. -/
def mul : F64 → F64 → F64
  | nan, _ => nan
  | _, nan => nan
  | inf a, inf b => inf (xor a b)
  | inf a, fin s m _ => if m = 0 then nan else inf (xor a s)
  | fin s m _, inf b => if m = 0 then nan else inf (xor s b)
  | fin s1 m1 e1, fin s2 m2 e2 =>
    roundNE (xor s1 s2) (m1 * m2 * 2 ^ (e1 + e2).toNat) (2 ^ (-(e1 + e2)).toNat)

/-- Float division `x / y`. -/
def div : F64 → F64 → F64
  | nan, _ => nan
  | _, nan => nan
  | inf _, inf _ => nan
  | inf a, fin s _ _ => inf (xor a s)
  | fin s _ _, inf b => fin (xor s b) 0 (-1074)
  | fin s1 m1 e1, fin s2 m2 e2 =>
    if m2 = 0 then (if m1 = 0 then nan else inf (xor s1 s2))
    else roundNE (xor s1 s2) (m1 * 2 ^ (e1 - e2).toNat) (m2 * 2 ^ (e2 - e1).toNat)

/-- Float comparison `x < y`; false whenever an operand is NaN. -/
def lt : F64 → F64 → Bool
  | nan, _ => false
  | _, nan => false
  | inf a, inf b => a && !b
  | inf a, fin _ _ _ => a
  | fin _ _ _, inf b => !b
  | fin s1 m1 e1, fin s2 m2 e2 =>
    decide (scaled s1 m1 (e1 - min e1 e2) < scaled s2 m2 (e2 - min e1 e2))

/-- Float comparison `x > y`. -/
def gt (x y : F64) : Bool := lt y x

/-- The value truncated toward zero, for finite values. -/
def trunc : F64 → Option Int
  | fin s m e => some (if s then -((m * 2 ^ e.toNat / 2 ^ (-e).toNat : Nat) : Int)
                       else ((m * 2 ^ e.toNat / 2 ^ (-e).toNat : Nat) : Int))
  | _ => none

end F64

/-- Largest Go `int` (64-bit). -/
def maxInt : Int := 2 ^ 63 - 1

/-- Smallest Go `int` (64-bit). -/
def minInt : Int := -(2 ^ 63)

/-- Reduction of an integer into the `int` range (two's complement). -/
def wrap64 (n : Int) : Int := (n + 2 ^ 63) % 2 ^ 64 - 2 ^ 63

/-- Conversion `int(f)`: truncation toward zero when the result fits; otherwise the
language leaves the value to the implementation, here `conv f` reduced to the `int`
range. -/
def floatToInt (conv : F64 → Int) (f : F64) : Int :=
  match F64.trunc f with
  | some n => if minInt ≤ n ∧ n ≤ maxInt then n else wrap64 (conv f)
  | none => wrap64 (conv f)

/-- Out-of-range conversion on amd64: the "integer indefinite" value `-2^63`. -/
def amd64Conv : F64 → Int := fun _ => minInt

/-- Out-of-range conversion on arm64: saturation, NaN to zero. -/
def arm64Conv : F64 → Int
  | F64.nan => 0
  | F64.inf neg => if neg then minInt else maxInt
  | F64.fin neg _ _ => if neg then minInt else maxInt

/-! ## strconv -/

/-- Decimal digit character. -/
def digitChar (d : Nat) : Char := ("0123456789".data).getD d '0'

/-- Decimal digits of a natural number, most significant first. -/
def natDigitsFuel : Nat → Nat → List Char → List Char
  | 0, _, acc => acc
  | fuel + 1, n, acc =>
    if n < 10 then digitChar n :: acc
    else natDigitsFuel fuel (n / 10) (digitChar (n % 10) :: acc)

/-- Decimal rendering of a natural number. -/
def natToDec (n : Nat) : List Char := natDigitsFuel (n + 1) n []

/-- Go `strconv.Itoa`, also the rendering of the verb `%d`. -/
def Itoa (n : Int) : String :=
  if n < 0 then String.mk ('-' :: natToDec n.natAbs) else String.mk (natToDec n.natAbs)

/-- Value of a decimal digit character, if it is one. -/
def digitVal (c : Char) : Option Nat :=
  if '0' ≤ c ∧ c ≤ '9' then some (c.toNat - 48) else none

/-- Value of a non-empty all-digit string, read left to right from `acc`. -/
def digitsVal : List Char → Nat → Option Nat
  | [], acc => some acc
  | c :: cs, acc =>
    match digitVal c with
    | some d => digitsVal cs (acc * 10 + d)
    | none => none

/-- The digits of `strconv.Atoi` after the optional sign: at least one, all decimal, and
the signed value within `int`. -/
def atoiDigits (neg : Bool) (ds : List Char) : Option Int :=
  if ds.isEmpty then none
  else
    match digitsVal ds 0 with
    | none => none
    | some v =>
      if minInt ≤ (if neg then -(v : Int) else (v : Int))
          ∧ (if neg then -(v : Int) else (v : Int)) ≤ maxInt
      then some (if neg then -(v : Int) else (v : Int))
      else none

/-- Go `strconv.Atoi` on a 64-bit platform: an optional sign followed by one or
more decimal digits, whose value fits in `int`; `none` stands for the error
(`ErrSyntax` or `ErrRange`). -/
def Atoi (s : String) : Option Int :=
  match s.data with
  | '-' :: ds => atoiDigits true ds
  | '+' :: ds => atoiDigits false ds
  | ds => atoiDigits false ds

/-- Error kinds of `strconv.ParseFloat`. -/
inductive NumError where
  | errSyntax : NumError
  | errRange : NumError
  deriving DecidableEq, Repr

/-- Number of dots in a string. -/
def countDots (s : List Char) : Nat := s.count '.'

/-- Go `strconv.ParseFloat(s, 64)` on the strings the program passes to it, which
consist of decimal digits and dots only (they are captures of the class `[\d\.]`).
Such a string is well formed when it has at most one dot and at least one digit;
its value is the correctly rounded decimal. An ill-formed string gives `0` and
`ErrSyntax`; a well-formed one beyond the float64 range gives `+Inf` and `ErrRange`. -/
def ParseFloat (s : List Char) : F64 × Option NumError :=
  let intPart := s.takeWhile (fun c => c != '.')
  let fracPart := (s.dropWhile (fun c => c != '.')).drop 1
  if 1 < countDots s ∨ (intPart ++ fracPart).isEmpty then (F64.zero, some NumError.errSyntax)
  else
    match digitsVal (intPart ++ fracPart) 0 with
    | none => (F64.zero, some NumError.errSyntax)
    | some v =>
      match F64.roundNE false v (10 ^ fracPart.length) with
      | F64.inf neg => (F64.inf neg, some NumError.errRange)
      | f => (f, none)

/-! ## regexp -/

/-- The character class `[\d\.]` (in Go `\d` is ASCII only). -/
def isClassChar (c : Char) : Bool := ('0' ≤ c ∧ c ≤ '9') || c == '.'

/-- Removes a literal prefix. -/
def dropLiteral : List Char → List Char → Option (List Char)
  | [], s => some s
  | _ :: _, [] => none
  | p :: ps, c :: cs => if p = c then dropLiteral ps cs else none

/-- A match of `time=([\d\.]+) ms` starting at the head of `s`: the capture and the
text after the match. The class run is taken maximal; a shorter run can never be
followed by the blank, so this is the only match at this position. -/
def matchHere (s : List Char) : Option (List Char × List Char) :=
  match dropLiteral "time=".data s with
  | none => none
  | some s1 =>
    if (s1.takeWhile isClassChar).isEmpty then none
    else
      match dropLiteral " ms".data (s1.dropWhile isClassChar) with
      | none => none
      | some rest => some (s1.takeWhile isClassChar, rest)

/-- Leftmost non-overlapping matches, scanning from the left; after a match the scan
resumes at its end. -/
def findAllFuel : Nat → List Char → List (List Char)
  | 0, _ => []
  | _ + 1, [] => []
  | fuel + 1, c :: cs =>
    match matchHere (c :: cs) with
    | some (cap, rest) => cap :: findAllFuel fuel rest
    | none => findAllFuel fuel cs

/-- Go `r.FindAllStringSubmatch(s, -1)` for `r = time=([\d\.]+) ms`, keeping of each
match its capture group `match[1]`; the empty list stands for `nil`. -/
def FindAllStringSubmatch (s : String) : List (List Char) :=
  findAllFuel s.data.length s.data

/-! ## fmt, strings, time -/

/-- Go `fmt.Sprintf("%.2f", f)`: the exact binary value rounded to two decimals,
ties to even. -/
def fmtFixed2 : F64 → String
  | F64.nan => "NaN"
  | F64.inf neg => if neg then "-Inf" else "+Inf"
  | F64.fin neg m e =>
    let num : Nat := m * 100 * 2 ^ e.toNat
    let den : Nat := 2 ^ (-e).toNat
    let q : Nat := num / den
    let r : Nat := num % den
    let n : Nat := if den < 2 * r ∨ (2 * r = den ∧ q % 2 = 1) then q + 1 else q
    String.mk ((if neg then ['-'] else []) ++ natToDec (n / 100)
      ++ ['.', digitChar (n / 10 % 10), digitChar (n % 10)])

/-- The runtime's `maxAlloc` on 64-bit platforms: no single allocation is larger. -/
def maxAlloc : Int := 2 ^ 48

/-- Bytes `strings.Repeat(s, count)` allocates: none for the counts 0 and 1, which return
without building anything, else the byte length of the result. -/
def repeatAlloc (s : String) (count : Int) : Int :=
  if count = 0 ∨ count = 1 then 0 else (s.utf8ByteSize : Int) * count

/-- Go `strings.Repeat(s, count)` when `avail` bytes can still be allocated. The counts 0
and 1 return at once. Otherwise it panics on a negative count and when the byte length of
the result exceeds the `int` range, and the allocation of the result ends the run when
that length exceeds `maxAlloc` (panic in `makeslice`) or the memory available. -/
def Repeat (avail : Int) (s : String) (count : Int) : Except String String :=
  if count = 0 then Except.ok ""
  else if count = 1 then Except.ok s
  else if count < 0 then Except.error "strings: negative Repeat count"
  else if maxInt < (s.utf8ByteSize : Int) * count then
    Except.error "strings: Repeat output length overflow"
  else if maxAlloc < (s.utf8ByteSize : Int) * count then
    Except.error "runtime error: makeslice: len out of range"
  else if avail < (s.utf8ByteSize : Int) * count then
    Except.error "fatal error: runtime: out of memory"
  else Except.ok (String.mk (List.replicate count.toNat s.data).flatten)

/-- Go `time.Duration.Seconds` of a duration in nanoseconds. -/
def durationSeconds (d : Int) : F64 :=
  F64.add (F64.ofInt (d.tdiv 1000000000))
    (F64.div (F64.ofInt (d.tmod 1000000000)) (F64.ofInt 1000000000))

/-! ## Program output -/

/-- An operand of a print call. -/
inductive Arg where
  | str (s : String) : Arg
  | int (n : Int) : Arg
  | float (f : F64) : Arg
  deriving DecidableEq, Repr

/-- The two bar colours `tablewriter.FgBlueColor` and `tablewriter.FgGreenColor`. -/
inductive Color where
  | blue : Color
  | green : Color
  deriving DecidableEq, Repr

/-- A table row: its cells and, for a row added with `table.Rich`, the colour of the
third cell (`none` for a row added with `table.Append`). -/
structure Row where
  cells : List String
  barColor : Option Color
  deriving DecidableEq, Repr

/-- What the program does that can be observed, in order: print calls with their
operands, rendered tables, and the entry into `drawTable`. -/
inductive Event where
  | println (args : List Arg) : Event
  | printf (format : String) (args : List Arg) : Event
  | render (header : List String) (rows : List Row) : Event
  | enterDrawTable (floatTimes : List F64) : Event
  deriving DecidableEq, Repr

/-- How a run ends: return from `main` (exit code 0), `os.Exit(code)`, or a panic or
fatal runtime error with its message. -/
inductive Status where
  | returned : Status
  | exited (code : Nat) : Status
  | panicked (msg : String) : Status
  deriving DecidableEq, Repr

/-- Events of a run and the way it ended. -/
structure Outcome where
  events : List Event
  status : Status
  deriving DecidableEq, Repr

/-- The environment of a run. -/
structure World where
  /-- Result of `exec.Command(name, args...).CombinedOutput()`, error dropped. -/
  combinedOutput : List String → String
  /-- Whether `net.ParseIP(s)` is non-nil. -/
  parseIP : String → Bool
  /-- Result of `net.LookupIP`, each address rendered with `ip.String()`. -/
  lookupIP : String → Except String (List String)
  /-- Result of `net.DialTimeout("tcp", address, seconds)`: `none` on error, else
  the nanoseconds between the clock reading before the dial and the one after the
  connection was closed. -/
  dialTimeout : String → Nat → Option Int
  /-- Result of an out-of-range `float64` to `int` conversion. -/
  convOutOfRange : F64 → Int
  /-- Bytes of memory the run can obtain for the bars of the latency table. -/
  memLimit : Nat

/-! ## drawTable (lines 162-189) -/

/-- The string literal repeated to draw a bar (line 173), as it stands in the source file. -/
def barGlyph : String := "â–ˆ"

/-- The colour table `graphColors`. -/
def graphColors : List Color := [Color.blue, Color.green]

/-- The row loop of `drawTable` (lines 172-175) from 0-based index `i` on, when `avail`
bytes can still be allocated for bars; the bars built stay alive in the table. An error is
the panic or fatal error of `strings.Repeat`. -/
def tableRows (conv : F64 → Int) : Int → Nat → List F64 → Except String (List Row)
  | _, _, [] => Except.ok []
  | avail, i, time :: rest =>
    match Repeat avail barGlyph (floatToInt conv (F64.div time (F64.ofInt 10))) with
    | Except.error msg => Except.error msg
    | Except.ok bar =>
      match tableRows conv
          (avail - repeatAlloc barGlyph (floatToInt conv (F64.div time (F64.ofInt 10))))
          (i + 1) rest with
      | Except.error msg => Except.error msg
      | Except.ok rows =>
        Except.ok ({ cells := [Itoa ((i : Int) + 1), fmtFixed2 time ++ " ms", bar],
                     barColor := graphColors.get? (i % 2) } :: rows)

/-- The sum loop of `drawTable` (lines 179-182). -/
def total (floatTimes : List F64) : F64 := floatTimes.foldl F64.add F64.zero

/-- The quotient `total / float64(len(floatTimes))` (line 183). -/
def average (floatTimes : List F64) : F64 :=
  F64.div (total floatTimes) (F64.ofInt floatTimes.length)

/-- The high-latency advisory (line 187). -/
def highAdvisory : Event := Event.println [Arg.str "This response time seems high."]

/-- The function `drawTable`, when `avail` bytes can be allocated for bars. -/
def drawTable (conv : F64 → Int) (avail : Int) (floatTimes : List F64) (ipOrDNS : String)
    (duration : Int) : Outcome :=
  match tableRows conv avail 0 floatTimes with
  | Except.error msg => { events := [Event.enterDrawTable floatTimes], status := Status.panicked msg }
  | Except.ok rows =>
    { events :=
        [Event.enterDrawTable floatTimes,
         Event.render ["Ping number", "Response Time (ms)", "Graph"] rows,
         Event.println [Arg.str "Average response time for", Arg.str ipOrDNS, Arg.str "over",
           Arg.int duration, Arg.str "seconds:", Arg.float (average floatTimes), Arg.str "ms"]]
        ++ (if F64.gt (average floatTimes) (F64.ofInt 200) then [highAdvisory] else []),
      status := Status.returned }

/-! ## Port probes (lines 83-129, 134-152) -/

/-- The function `isPortOpen`. -/
def isPortOpen (w : World) (host : String) (port : Int) : Bool :=
  match w.dialTimeout (host ++ ":" ++ Itoa port) 2 with
  | none => false
  | some _ => true

/-- The function `measureTCPConnTime`; `none` is the error result. -/
def measureTCPConnTime (w : World) (host : String) (port : Int) : Option Int :=
  match w.dialTimeout (host ++ ":" ++ Itoa port) 5 with
  | none => none
  | some elapsed => some elapsed

/-- The port list of line 84. -/
def ports : List Int := [22, 443, 80, 5432]

/-- Assignment `m[k] = v` on a Go map, kept as an association list. -/
def mapSet (m : List (Int × String)) (k : Int) (v : String) : List (Int × String) :=
  (k, v) :: m.filter (fun p => p.1 != k)

/-- Lookup `m[k]` on a Go map; a missing key gives the empty string. -/
def mapGet (m : List (Int × String)) (k : Int) : String :=
  match m.find? (fun p => p.1 == k) with
  | some p => p.2
  | none => ""

/-- The map `portStatus` after the loop of lines 87-93. -/
def portStatus (w : World) (host : String) : List (Int × String) :=
  ports.foldl
    (fun m port => mapSet m port (if isPortOpen w host port then "Open/Responded" else "No Response"))
    []

/-- Rows of the port-status table (lines 99-101). -/
def portRows (w : World) (host : String) : List Row :=
  ports.map (fun port => { cells := [Itoa port, mapGet (portStatus w host) port], barColor := none })

/-- Latency cell of one port (lines 119-125). -/
def connTimeCell (w : World) (host : String) (port : Int) : String :=
  match measureTCPConnTime w host port with
  | none => "Unable to connect"
  | some connTime => fmtFixed2 (F64.mul (durationSeconds connTime) (F64.ofInt 1000)) ++ " ms"

/-- Rows of the port-latency table (lines 118-126). -/
def connTimeRows (w : World) (host : String) : List Row :=
  ports.map (fun port => { cells := [Itoa port, connTimeCell w host port], barColor := none })

/-- Lines 83-129 of `main`. -/
def portStage (w : World) (host : String) : List Event :=
  [Event.println [Arg.str "Port Check Results:"],
   Event.render ["Port", "Status"] (portRows w host),
   Event.println [],
   Event.println [Arg.str "TCP Connection Time Results (Latency with 5 Second Count):"],
   Event.render ["Port", "Latency (ms)"] (connTimeRows w host),
   Event.println []]

/-! ## main (lines 15-132) -/

/-- The probe configuration read from the command line. -/
structure ProbeConfig where
  target : String
  durationSeconds : Int
  deriving DecidableEq, Repr

/-- Result of lines 16-35. -/
inductive ConfigResult where
  | usage : ConfigResult
  | invalidDuration (arg : String) : ConfigResult
  | ok (cfg : ProbeConfig) : ConfigResult
  deriving DecidableEq, Repr

/-- Lines 16-35 of `main` over `osArgs = os.Args` (program name first). -/
def parseConfig (osArgs : List String) : ConfigResult :=
  if osArgs.length < 2 then ConfigResult.usage
  else if osArgs.getD 1 "" = "-d" ∧ 3 < osArgs.length then
    match Atoi (osArgs.getD 2 "") with
    | none => ConfigResult.invalidDuration (osArgs.getD 2 "")
    | some tempDuration =>
      ConfigResult.ok { target := osArgs.getD 3 "", durationSeconds := tempDuration }
  else ConfigResult.ok { target := osArgs.getD 1 "", durationSeconds := 60 }

/-- One pass of the collection loop (lines 51-54, and again lines 57-60): each capture
converted with `strconv.ParseFloat`, the error dropped. -/
def collect (floatTimes : List F64) (captures : List (List Char)) : List F64 :=
  captures.foldl (fun acc cap => acc ++ [(ParseFloat cap).1]) floatTimes

/-- The raw output of the `ping` subprocess (lines 39-40). -/
def pingOutput (w : World) (cfg : ProbeConfig) : String :=
  w.combinedOutput ["ping", "-c", Itoa cfg.durationSeconds, "-i", "1", cfg.target]

/-- The slice `floatTimes` after lines 42-60, for the raw output `output`. -/
def floatTimesOf (output : String) : List F64 :=
  let found := FindAllStringSubmatch output
  let first := if found.isEmpty then [] else collect [] found
  collect first found

/-- The failure advisory in its two forms (line 48 and line 78). -/
def failAdvisoryPrintln (cfg : ProbeConfig) : Event :=
  Event.println [Arg.str "Failed to ping", Arg.str cfg.target, Arg.str "or no response in",
    Arg.int cfg.durationSeconds, Arg.str "seconds."]

/-- The failure advisory of line 78. -/
def failAdvisoryPrintf (cfg : ProbeConfig) : Event :=
  Event.printf "Failed to ping %s or no response in %d seconds.\n"
    [Arg.str cfg.target, Arg.int cfg.durationSeconds]

/-- Lines 45-55: the advisory printed when there is no match, and `printedFailMsg`. -/
def firstAdvisory (cfg : ProbeConfig) (output : String) : List Event × Bool :=
  if (FindAllStringSubmatch output).isEmpty then ([failAdvisoryPrintln cfg], true) else ([], false)

/-- Lines 62-74: name resolution when the target is not an IP literal. -/
def resolveStage (w : World) (ipOrDNS : String) : List Event :=
  if w.parseIP ipOrDNS then []
  else
    match w.lookupIP ipOrDNS with
    | Except.error err =>
      [Event.printf "Failed to lookup IP for domain %s: %s\n" [Arg.str ipOrDNS, Arg.str err]]
    | Except.ok ips =>
      if 0 < ips.length then
        [Event.printf "\nDomain: %s\n" [Arg.str ipOrDNS]]
          ++ ips.map (fun ip => Event.printf "Resolved IP: %s\n" [Arg.str ip])
          ++ [Event.println []]
      else []

/-- Lines 76-81: the second advisory or the call of `drawTable`. -/
def reportStage (w : World) (cfg : ProbeConfig) (floatTimes : List F64)
    (printedFailMsg : Bool) : Outcome :=
  if floatTimes.length = 0 ∧ printedFailMsg = false then
    { events := [failAdvisoryPrintf cfg], status := Status.returned }
  else if 0 < floatTimes.length then
    drawTable w.convOutOfRange w.memLimit floatTimes cfg.target cfg.durationSeconds
  else { events := [], status := Status.returned }

/-- Lines 37-132 of `main`, once the configuration is known. -/
def run (w : World) (cfg : ProbeConfig) : Outcome :=
  let output := pingOutput w cfg
  let floatTimes := floatTimesOf output
  let report := reportStage w cfg floatTimes (firstAdvisory cfg output).2
  let before : List Event :=
    [Event.printf "The ping will run for %d seconds...\n" [Arg.int cfg.durationSeconds]]
      ++ (firstAdvisory cfg output).1 ++ resolveStage w cfg.target ++ report.events
  match report.status with
  | Status.returned => { events := before ++ portStage w cfg.target, status := Status.returned }
  | st => { events := before, status := st }

/-- The function `main`, for `os.Args = prog :: args`. -/
def main (w : World) (prog : String) (args : List String) : Outcome :=
  match parseConfig (prog :: args) with
  | ConfigResult.usage =>
    { events := [Event.println [Arg.str "Usage:", Arg.str prog,
        Arg.str "[-d duration_in_seconds] <ip_or_dns_name>"]],
      status := Status.exited 1 }
  | ConfigResult.invalidDuration arg =>
    { events := [Event.println [Arg.str "Invalid duration specified:", Arg.str arg]],
      status := Status.exited 1 }
  | ConfigResult.ok cfg => run w cfg

/-! ## Reading the outcome -/

/-- Whether an event is the failure advisory. -/
def isFailAdvisory (cfg : ProbeConfig) (e : Event) : Bool :=
  e == failAdvisoryPrintln cfg || e == failAdvisoryPrintf cfg

/-- Whether an event is an entry into `drawTable`. -/
def isDrawTableCall : Event → Bool
  | Event.enterDrawTable _ => true
  | _ => false

/-- A quiet world: `ping` prints `output`, every target is an IP literal, every dial
fails, conversions behave as on amd64, and 8 GiB can be allocated. -/
def quietWorld (output : String) : World :=
  { combinedOutput := fun _ => output
    parseIP := fun _ => true
    lookupIP := fun _ => Except.ok []
    dialTimeout := fun _ _ => none
    convOutOfRange := amd64Conv
    memLimit := 2 ^ 33 }

/-! ## Notions used to state the properties -/

/-- The samples of one pass over the matches of `output`. -/
def onceOf (output : String) : List F64 :=
  (FindAllStringSubmatch output).map (fun cap => (ParseFloat cap).1)

/-- The exact rational value of a finite float. -/
def F64.toRat : F64 → Option ℚ
  | F64.fin neg m e => some ((if neg then -(m : ℚ) else (m : ℚ)) * (2 : ℚ) ^ e)
  | _ => none

/-- The exact sum of a sequence of finite floats. -/
def exactSum : List F64 → Option ℚ
  | [] => some 0
  | x :: xs =>
    match F64.toRat x, exactSum xs with
    | some a, some b => some (a + b)
    | _, _ => none

/-- The average `sum / count` in exact arithmetic, of a non-empty sequence of finite floats. -/
def exactAverage (xs : List F64) : Option ℚ :=
  if xs.length = 0 then none else (exactSum xs).map (fun s => s / (xs.length : ℚ))

/-- A capture of the group `([\d\.]+)`: a non-empty string of digits and dots. -/
def IsCapture (cap : List Char) : Prop :=
  cap ≠ [] ∧ ∀ c ∈ cap, isClassChar c = true

/-- The text `s` contains an occurrence of `time=<number> ms`. -/
def ContainsMatch (s : List Char) : Prop :=
  ∃ pre cap post, IsCapture cap ∧ s = pre ++ ("time=".data ++ cap ++ " ms".data ++ post)

/-- A digit string beyond the float64 range: 310 nines. -/
def hugeDigits : List Char := List.replicate 310 '9'

/-- A raw output whose first reply carries `hugeDigits` and whose second carries `7`. -/
def hugeOutput : String :=
  String.mk ("time=".data ++ hugeDigits ++ " ms\n64 bytes: icmp_seq=2 time=7 ms".data)

/-- A decimal digit character. -/
def IsDecDigit (c : Char) : Prop := '0' ≤ c ∧ c ≤ '9'

/-- The number written by a string of decimal digits. -/
def decimalValue (ds : List Char) : Nat :=
  ds.foldl (fun acc c => acc * 10 + (c.toNat - 48)) 0

/-- The string `s` is a decimal numeral of the integer `n`: an optional sign `+` or `-`
followed by one or more decimal digits. -/
def DenotesInt (s : String) (n : Int) : Prop :=
  ∃ sign ds : List Char,
    s.data = sign ++ ds ∧ (sign = [] ∨ sign = ['+'] ∨ sign = ['-']) ∧ ds ≠ []
      ∧ (∀ c ∈ ds, IsDecDigit c)
      ∧ n = if sign = ['-'] then -(decimalValue ds : Int) else (decimalValue ds : Int)

/-- The string `s` is an integer in the sense of the program: a decimal numeral whose
value is a Go `int` (64-bit). -/
def IsIntArg (s : String) : Prop :=
  ∃ n : Int, DenotesInt s n ∧ minInt ≤ n ∧ n ≤ maxInt

/-- The bar made of `k` repetitions of the bar glyph. -/
def barOf (k : Nat) : String := String.mk (List.replicate k barGlyph.data).flatten

/-- The bar length of a latency, when there is one: the latency is finite and not
negative, `n` is the floor of the float64 quotient `time / 10`, and a bar of `n` glyphs
is no longer than `maxAlloc` bytes. -/
def barCount (time : F64) : Option Nat :=
  match time with
  | F64.fin false _ _ =>
    match F64.trunc (F64.div time (F64.ofInt 10)) with
    | some n =>
      if 0 ≤ n ∧ (barGlyph.utf8ByteSize : Int) * n ≤ maxAlloc then some n.toNat else none
    | none => none
  | _ => none

/-- Bytes allocated for the bar of a latency: those of `strings.Repeat` at its bar length,
none for a latency without bar length. -/
def barBytes (time : F64) : Int :=
  match barCount time with
  | some k => repeatAlloc barGlyph (k : Int)
  | none => 0

/-- Bytes allocated for the bars of a sample sequence. -/
def totalBarBytes (xs : List F64) : Int := (xs.map barBytes).sum

/-- Every latency of the sequence has a bar length, and the bars together fit in `avail`
bytes: the row loop of `drawTable` can build them all. -/
def BarsFit (avail : Int) (xs : List F64) : Prop :=
  (∀ t ∈ xs, barCount t ≠ none) ∧ totalBarBytes xs ≤ avail

/-- The latency `100000000000000000000` ms, as `ParseFloat` returns it. -/
def hugeLatency : F64 := (ParseFloat "100000000000000000000".data).1

/-- The latency `10000000000000000` ms, as `ParseFloat` returns it. -/
def largeLatency : F64 := (ParseFloat "10000000000000000".data).1

/-! ## The latency series -/

theorem collect_eq (acc : List F64) (caps : List (List Char)) :
    collect acc caps = acc ++ caps.map (fun cap => (ParseFloat cap).1) := by
  induction caps generalizing acc with
  | nil => simp [collect]
  | cons c cs ih =>
    have h := ih (acc ++ [(ParseFloat c).1])
    simp only [collect, List.foldl_cons] at h ⊢
    rw [h]; simp

theorem floatTimesOf_eq (output : String) :
    floatTimesOf output = onceOf output ++ onceOf output := by
  unfold floatTimesOf onceOf
  simp only [collect_eq]
  cases h : FindAllStringSubmatch output <;> simp

theorem exactSum_append (xs ys : List F64) :
    exactSum (xs ++ ys) =
      match exactSum xs, exactSum ys with
      | some a, some b => some (a + b)
      | _, _ => none := by
  induction xs with
  | nil => cases h : exactSum ys <;> simp [exactSum, h]
  | cons x xs ih =>
    show exactSum (x :: (xs ++ ys)) = _
    rw [exactSum, ih, exactSum]
    cases F64.toRat x <;> cases exactSum xs <;> cases exactSum ys <;> simp [add_assoc]

theorem exactAverage_double (xs : List F64) :
    exactAverage (xs ++ xs) = exactAverage xs := by
  unfold exactAverage
  rw [exactSum_append]
  cases xs with
  | nil => simp
  | cons x xs =>
    cases h : exactSum (x :: xs) with
    | none => simp
    | some s =>
      have hne : ((xs.length : ℚ) + 1) ≠ 0 := by positivity
      simp only [List.length_append, List.length_cons, Option.map_some']
      simp only [Nat.add_eq_zero, one_ne_zero, and_false, false_and, if_false, and_self]
      congr 1
      push_cast
      field_simp
      ring

/-! ## The pattern -/

theorem dropLiteral_eq_some (p s r : List Char) :
    dropLiteral p s = some r ↔ s = p ++ r := by
  induction p generalizing s with
  | nil => simp [dropLiteral, eq_comm]
  | cons a p ih =>
    cases s with
    | nil => simp [dropLiteral]
    | cons c cs =>
      by_cases h : a = c
      · subst h; simp [dropLiteral, ih]
      · simp [dropLiteral, h]
        intro h2; exact absurd h2.symm h

theorem takeWhile_class_append (cap rest : List Char)
    (hcap : ∀ c ∈ cap, isClassChar c = true) :
    (cap ++ ' ' :: rest).takeWhile isClassChar = cap
    ∧ (cap ++ ' ' :: rest).dropWhile isClassChar = ' ' :: rest := by
  induction cap with
  | nil =>
    have : isClassChar ' ' = false := by decide
    simp [List.takeWhile, List.dropWhile, this]
  | cons a cap ih =>
    have ha : isClassChar a = true := hcap a (by simp)
    have ih2 := ih (fun c hc => hcap c (by simp [hc]))
    simp [List.takeWhile, List.dropWhile, ha, ih2.1, ih2.2]

theorem matchHere_eq_some (s cap rest : List Char) :
    matchHere s = some (cap, rest)
      ↔ IsCapture cap ∧ s = "time=".data ++ cap ++ " ms".data ++ rest := by
  constructor
  · intro h
    unfold matchHere at h
    cases h1 : dropLiteral "time=".data s with
    | none => simp [h1] at h
    | some s1 =>
      rw [h1] at h
      simp only at h
      by_cases he : (s1.takeWhile isClassChar).isEmpty = true
      · simp [he] at h
      · simp only [he] at h
        cases h2 : dropLiteral " ms".data (s1.dropWhile isClassChar) with
        | none => simp [h2] at h
        | some r =>
          rw [h2] at h
          simp only [Bool.false_eq_true, if_false, Option.some.injEq, Prod.mk.injEq] at h
          obtain ⟨hc, hr⟩ := h
          subst hr
          have e1 := (dropLiteral_eq_some _ _ _).1 h1
          have e2 := (dropLiteral_eq_some _ _ _).1 h2
          refine ⟨⟨?_, ?_⟩, ?_⟩
          · intro hn
            apply he
            rw [hc, hn]; rfl
          · intro c hcm
            rw [← hc] at hcm
            exact (List.mem_takeWhile_imp hcm)
          · rw [e1, ← hc]
            have := List.takeWhile_append_dropWhile isClassChar s1
            rw [e2] at this
            rw [List.append_assoc, List.append_assoc]
            congr 1
            rw [← List.append_assoc] 
            simpa [List.append_assoc] using this.symm
  · rintro ⟨⟨hne, hall⟩, hs⟩
    subst hs
    unfold matchHere
    have h1 : dropLiteral "time=".data ("time=".data ++ cap ++ " ms".data ++ rest)
        = some (cap ++ ' ' :: ('m' :: 's' :: rest)) := by
      rw [dropLiteral_eq_some]; simp
    rw [h1]
    obtain ⟨ht, hd⟩ := takeWhile_class_append cap ('m' :: 's' :: rest) hall
    simp only [ht, hd]
    have he : cap.isEmpty = false := by
      cases cap with
      | nil => exact absurd rfl hne
      | cons a t => rfl
    have h2 : dropLiteral " ms".data (' ' :: 'm' :: 's' :: rest) = some rest := by
      rw [dropLiteral_eq_some]; rfl
    simp [he, h2]

theorem containsMatch_nil : ¬ ContainsMatch [] := by
  rintro ⟨pre, cap, post, _, h⟩
  have := congrArg List.length h
  simp at this
  omega

theorem containsMatch_cons (c : Char) (cs : List Char) (h : matchHere (c :: cs) = none) :
    ContainsMatch (c :: cs) ↔ ContainsMatch cs := by
  constructor
  · rintro ⟨pre, cap, post, hcap, hs⟩
    cases pre with
    | nil =>
      have : matchHere (c :: cs) = some (cap, post) := by
        rw [matchHere_eq_some]; exact ⟨hcap, by simpa using hs⟩
      rw [h] at this; cases this
    | cons a pre =>
      simp only [List.cons_append, List.cons.injEq] at hs
      exact ⟨pre, cap, post, hcap, hs.2⟩
  · rintro ⟨pre, cap, post, hcap, hs⟩
    exact ⟨c :: pre, cap, post, hcap, by simp [hs]⟩

theorem findAllFuel_eq_nil (fuel : Nat) (s : List Char) (hf : s.length ≤ fuel) :
    findAllFuel fuel s = [] ↔ ¬ ContainsMatch s := by
  induction fuel generalizing s with
  | zero =>
    have : s = [] := List.length_eq_zero.1 (Nat.le_zero.1 hf)
    subst this
    simp [findAllFuel, containsMatch_nil]
  | succ n ih =>
    cases s with
    | nil => simp [findAllFuel, containsMatch_nil]
    | cons c cs =>
      cases hm : matchHere (c :: cs) with
      | none =>
        rw [containsMatch_cons c cs hm]
        simp only [findAllFuel, hm]
        exact ih cs (by simpa using hf)
      | some p =>
        obtain ⟨cap, rest⟩ := p
        simp only [findAllFuel, hm]
        have hc := (matchHere_eq_some _ _ _).1 hm
        constructor
        · intro h; cases h
        · intro h
          exact absurd ⟨[], cap, rest, hc.1, by simpa using hc.2⟩ h

theorem findAll_eq_nil (output : String) :
    FindAllStringSubmatch output = [] ↔ ¬ ContainsMatch output.data :=
  findAllFuel_eq_nil _ _ (Nat.le_refl _)

/-! ## The stages of main -/

theorem floatTimesOf_eq_nil (output : String) :
    floatTimesOf output = [] ↔ FindAllStringSubmatch output = [] := by
  rw [floatTimesOf_eq]
  simp [onceOf]

theorem failAdvisory_resolveStage (w : World) (cfg : ProbeConfig) (t : String) :
    (resolveStage w t).countP (isFailAdvisory cfg) = 0 := by
  rw [List.countP_eq_zero]
  intro e he
  unfold resolveStage at he
  split at he
  · simp at he
  · split at he
    · simp at he; subst he
      simp [isFailAdvisory, failAdvisoryPrintln, failAdvisoryPrintf]
    · split at he
      · simp at he
        rcases he with he | ⟨ip, _, he⟩ | he <;> subst he <;>
          simp [isFailAdvisory, failAdvisoryPrintln, failAdvisoryPrintf]
      · simp at he

theorem drawCall_resolveStage (w : World) (t : String) :
    (resolveStage w t).countP isDrawTableCall = 0 := by
  rw [List.countP_eq_zero]
  intro e he
  unfold resolveStage at he
  split at he
  · simp at he
  · split at he
    · simp at he; subst he; simp [isDrawTableCall]
    · split at he
      · simp at he
        rcases he with he | ⟨ip, _, he⟩ | he <;> subst he <;> simp [isDrawTableCall]
      · simp at he

theorem failAdvisory_portStage (w : World) (cfg : ProbeConfig) (t : String) :
    (portStage w t).countP (isFailAdvisory cfg) = 0 := by
  simp [portStage, List.countP_cons, isFailAdvisory, failAdvisoryPrintln, failAdvisoryPrintf]

theorem drawCall_portStage (w : World) (t : String) :
    (portStage w t).countP isDrawTableCall = 0 := by
  simp [portStage, List.countP_cons, isDrawTableCall]

theorem failAdvisory_drawTable (conv : F64 → Int) (avail : Int) (cfg : ProbeConfig)
    (xs : List F64)
    (t : String) (d : Int) :
    (drawTable conv avail xs t d).events.countP (isFailAdvisory cfg) = 0 := by
  unfold drawTable
  split
  · simp [List.countP_cons, isFailAdvisory, failAdvisoryPrintln, failAdvisoryPrintf]
  · split <;>
      simp [List.countP_cons, isFailAdvisory, failAdvisoryPrintln, failAdvisoryPrintf,
        highAdvisory]

theorem drawCall_drawTable (conv : F64 → Int) (avail : Int) (xs : List F64)
    (t : String) (d : Int) :
    (drawTable conv avail xs t d).events.countP isDrawTableCall = 1 := by
  unfold drawTable
  split
  · simp [List.countP_cons, isDrawTableCall]
  · split <;> simp [List.countP_cons, isDrawTableCall, highAdvisory]

theorem drawTable_head (conv : F64 → Int) (avail : Int) (xs : List F64)
    (t : String) (d : Int) :
    ∃ tl, (drawTable conv avail xs t d).events = Event.enterDrawTable xs :: tl := by
  unfold drawTable
  split
  · exact ⟨[], rfl⟩
  · exact ⟨_, rfl⟩

theorem drawTable_status (conv : F64 → Int) (avail : Int) (xs : List F64)
    (t : String) (d : Int) :
    (drawTable conv avail xs t d).status = Status.returned
      ∨ ∃ msg, (drawTable conv avail xs t d).status = Status.panicked msg := by
  unfold drawTable
  split
  · exact Or.inr ⟨_, rfl⟩
  · exact Or.inl rfl

/-- The events of a run before the port section, and whether that section is reached. -/
theorem run_events (w : World) (cfg : ProbeConfig) :
    ∃ tl,
      (run w cfg).events =
        Event.printf "The ping will run for %d seconds...\n" [Arg.int cfg.durationSeconds]
          :: ((firstAdvisory cfg (pingOutput w cfg)).1 ++ resolveStage w cfg.target
              ++ (reportStage w cfg (floatTimesOf (pingOutput w cfg))
                    (firstAdvisory cfg (pingOutput w cfg)).2).events ++ tl)
      ∧ (tl = [] ∨ tl = portStage w cfg.target) := by
  unfold run
  simp only
  split
  · exact ⟨portStage w cfg.target, by simp, Or.inr rfl⟩
  · exact ⟨[], by simp, Or.inl rfl⟩

theorem run_no_match (w : World) (cfg : ProbeConfig)
    (h : FindAllStringSubmatch (pingOutput w cfg) = []) :
    (firstAdvisory cfg (pingOutput w cfg)) = ([failAdvisoryPrintln cfg], true)
    ∧ (reportStage w cfg (floatTimesOf (pingOutput w cfg))
        (firstAdvisory cfg (pingOutput w cfg)).2).events = [] := by
  have h1 : firstAdvisory cfg (pingOutput w cfg) = ([failAdvisoryPrintln cfg], true) := by
    simp [firstAdvisory, h]
  refine ⟨h1, ?_⟩
  rw [h1, (floatTimesOf_eq_nil _).2 h]
  simp [reportStage]

theorem run_match (w : World) (cfg : ProbeConfig)
    (h : FindAllStringSubmatch (pingOutput w cfg) ≠ []) :
    (firstAdvisory cfg (pingOutput w cfg)) = ([], false)
    ∧ reportStage w cfg (floatTimesOf (pingOutput w cfg))
        (firstAdvisory cfg (pingOutput w cfg)).2
      = drawTable w.convOutOfRange w.memLimit (floatTimesOf (pingOutput w cfg)) cfg.target
          cfg.durationSeconds := by
  have h1 : firstAdvisory cfg (pingOutput w cfg) = ([], false) := by
    simp [firstAdvisory, h]
  refine ⟨h1, ?_⟩
  have h2 : floatTimesOf (pingOutput w cfg) ≠ [] := fun hh => h ((floatTimesOf_eq_nil _).1 hh)
  have h3 : 0 < (floatTimesOf (pingOutput w cfg)).length := List.length_pos.2 h2
  have h4 : (floatTimesOf (pingOutput w cfg)).length ≠ 0 := by omega
  rw [h1]
  simp [reportStage, h3, h4]

theorem isFailAdvisory_self (cfg : ProbeConfig) :
    isFailAdvisory cfg (failAdvisoryPrintln cfg) = true := by
  simp [isFailAdvisory]

theorem main_of_config (w : World) (prog : String) (args : List String) (cfg : ProbeConfig)
    (hcfg : parseConfig (prog :: args) = ConfigResult.ok cfg) :
    main w prog args = run w cfg := by
  simp [main, hcfg]

/-! ## Advisory or table (C2), averaging precondition (C9) -/

/-- Claim C2. For a run whose arguments are accepted: if the raw probe output contains no
occurrence of the pattern, the sample sequence is empty, the failure advisory is printed
exactly once and `drawTable` is not entered; if it contains at least one, the sample
sequence is non-empty, the failure advisory is not printed and `drawTable` is entered
exactly once, with that sample sequence. -/
theorem advisory_xor_drawTable (w : World) (prog : String) (args : List String)
    (cfg : ProbeConfig) (hcfg : parseConfig (prog :: args) = ConfigResult.ok cfg) :
    (¬ ContainsMatch (pingOutput w cfg).data →
        floatTimesOf (pingOutput w cfg) = []
        ∧ (main w prog args).events.countP (isFailAdvisory cfg) = 1
        ∧ (main w prog args).events.countP isDrawTableCall = 0)
    ∧ (ContainsMatch (pingOutput w cfg).data →
        floatTimesOf (pingOutput w cfg) ≠ []
        ∧ (main w prog args).events.countP (isFailAdvisory cfg) = 0
        ∧ (main w prog args).events.countP isDrawTableCall = 1
        ∧ Event.enterDrawTable (floatTimesOf (pingOutput w cfg)) ∈ (main w prog args).events) := by
  rw [main_of_config w prog args cfg hcfg]
  obtain ⟨tl, hev, htl⟩ := run_events w cfg
  have hfail_tl : tl.countP (isFailAdvisory cfg) = 0 := by
    rcases htl with h | h <;> subst h
    · rfl
    · exact failAdvisory_portStage w cfg _
  have hdraw_tl : tl.countP isDrawTableCall = 0 := by
    rcases htl with h | h <;> subst h
    · rfl
    · exact drawCall_portStage w _
  have hhead1 : isFailAdvisory cfg (Event.printf "The ping will run for %d seconds...\n"
      [Arg.int cfg.durationSeconds]) = false := by
    simp [isFailAdvisory, failAdvisoryPrintln, failAdvisoryPrintf]
  have hhead2 : isDrawTableCall (Event.printf "The ping will run for %d seconds...\n"
      [Arg.int cfg.durationSeconds]) = false := rfl
  constructor
  · intro hno
    have hnil := (findAll_eq_nil _).2 hno
    obtain ⟨h1, h2⟩ := run_no_match w cfg hnil
    rw [hev, h2, h1]
    refine ⟨(floatTimesOf_eq_nil _).2 hnil, ?_, ?_⟩
    · simp [List.countP_cons, List.countP_append, hhead1, isFailAdvisory_self,
        failAdvisory_resolveStage, hfail_tl]
    · simp [List.countP_cons, List.countP_append, hhead2, drawCall_resolveStage, hdraw_tl,
        failAdvisoryPrintln, isDrawTableCall]
  · intro hyes
    have hne : FindAllStringSubmatch (pingOutput w cfg) ≠ [] :=
      fun hh => (findAll_eq_nil _).1 hh hyes
    obtain ⟨h1, h2⟩ := run_match w cfg hne
    rw [hev, h2, h1]
    refine ⟨fun hh => hne ((floatTimesOf_eq_nil _).1 hh), ?_, ?_, ?_⟩
    · simp [List.countP_cons, List.countP_append, hhead1, failAdvisory_resolveStage,
        failAdvisory_drawTable, hfail_tl]
    · simp [List.countP_cons, List.countP_append, hhead2, drawCall_resolveStage,
        drawCall_drawTable, hdraw_tl]
    · obtain ⟨t2, ht2⟩ := drawTable_head w.convOutOfRange w.memLimit (floatTimesOf (pingOutput w cfg))
        cfg.target cfg.durationSeconds
      rw [ht2]
      simp

/-- Witness for C2: a run with three arguments on an output with one reply, and a run on
an output without reply. -/
theorem advisory_xor_drawTable_witness :
    ((main (quietWorld "64 bytes from 10.0.0.1: icmp_seq=1 ttl=64 time=1.5 ms") "nettools"
        ["-d", "1", "10.0.0.1"]).events.countP
          (isFailAdvisory { target := "10.0.0.1", durationSeconds := 1 }) = 0
      ∧ (main (quietWorld "64 bytes from 10.0.0.1: icmp_seq=1 ttl=64 time=1.5 ms") "nettools"
        ["-d", "1", "10.0.0.1"]).events.countP isDrawTableCall = 1)
    ∧ ((main (quietWorld "Request timeout for icmp_seq 0") "nettools"
        ["-d", "1", "10.0.0.1"]).events.countP
          (isFailAdvisory { target := "10.0.0.1", durationSeconds := 1 }) = 1
      ∧ (main (quietWorld "Request timeout for icmp_seq 0") "nettools"
        ["-d", "1", "10.0.0.1"]).events.countP isDrawTableCall = 0) := by
  constructor
  · have h := (advisory_xor_drawTable
        (quietWorld "64 bytes from 10.0.0.1: icmp_seq=1 ttl=64 time=1.5 ms") "nettools"
        ["-d", "1", "10.0.0.1"] { target := "10.0.0.1", durationSeconds := 1 } (by decide)).2
        ⟨"64 bytes from 10.0.0.1: icmp_seq=1 ttl=64 ".data, "1.5".data, [],
          ⟨by decide, by decide⟩, by decide⟩
    exact ⟨h.2.1, h.2.2.1⟩
  · have h := (advisory_xor_drawTable
        (quietWorld "Request timeout for icmp_seq 0") "nettools"
        ["-d", "1", "10.0.0.1"] { target := "10.0.0.1", durationSeconds := 1 } (by decide)).1
        ((findAll_eq_nil _).1 (by decide))
    exact ⟨h.2.1, h.2.2⟩

/-- Claim C9. In every run of `main`, whatever the arguments and the probe output,
`drawTable` (and with it the division by `float64(len(floatTimes))`) is entered only with
a sample sequence of positive length. -/
theorem drawTable_only_nonempty (w : World) (prog : String) (args : List String)
    (xs : List F64) (h : Event.enterDrawTable xs ∈ (main w prog args).events) :
    0 < xs.length := by
  unfold main at h
  split at h
  · simp at h
  · simp at h
  · rename_i cfg _
    obtain ⟨tl, hev, htl⟩ := run_events w cfg
    rw [hev] at h
    have hcount : 0 < ((run w cfg).events).countP isDrawTableCall := by
      rw [hev]
      exact List.countP_pos_iff.2 ⟨_, h, rfl⟩
    by_cases hnil : FindAllStringSubmatch (pingOutput w cfg) = []
    · exfalso
      obtain ⟨h1, h2⟩ := run_no_match w cfg hnil
      rw [hev, h2, h1] at hcount
      have hdraw_tl : tl.countP isDrawTableCall = 0 := by
        rcases htl with h | h <;> subst h
        · rfl
        · exact drawCall_portStage w _
      simp [List.countP_cons, List.countP_append, drawCall_resolveStage, hdraw_tl,
        failAdvisoryPrintln, isDrawTableCall] at hcount
    · obtain ⟨h1, h2⟩ := run_match w cfg hnil
      rw [h2, h1] at h
      have hpos : 0 < (floatTimesOf (pingOutput w cfg)).length :=
        List.length_pos.2 (fun hh => hnil ((floatTimesOf_eq_nil _).1 hh))
      obtain ⟨t2, ht2⟩ := drawTable_head w.convOutOfRange w.memLimit (floatTimesOf (pingOutput w cfg))
        cfg.target cfg.durationSeconds
      have hd1 := drawCall_drawTable w.convOutOfRange w.memLimit (floatTimesOf (pingOutput w cfg))
        cfg.target cfg.durationSeconds
      rw [ht2] at h hd1
      have ht2z : t2.countP isDrawTableCall = 0 := by
        simpa [List.countP_cons, isDrawTableCall] using hd1
      have hres := drawCall_resolveStage w cfg.target
      have htlz : tl.countP isDrawTableCall = 0 := by
        rcases htl with h | h <;> subst h
        · rfl
        · exact drawCall_portStage w _
      rw [List.countP_eq_zero] at ht2z hres htlz
      simp only [List.mem_cons, List.mem_append, List.not_mem_nil, false_or] at h
      rcases h with h | ((h | h | h) | h)
      · cases h
      · exact absurd rfl (hres _ h)
      · cases h; exact hpos
      · exact absurd rfl (ht2z _ h)
      · exact absurd rfl (htlz _ h)

/-- Witness for C9: the sample sequence of a run with one reply. -/
theorem drawTable_only_nonempty_witness :
    0 < [F64.fin false 6755399441055744 (-52), F64.fin false 6755399441055744 (-52)].length :=
  drawTable_only_nonempty
    (quietWorld "64 bytes from 10.0.0.1: icmp_seq=1 ttl=64 time=1.5 ms") "nettools"
    ["10.0.0.1"] [F64.fin false 6755399441055744 (-52), F64.fin false 6755399441055744 (-52)]
    (by decide)

/-! ## Samples recorded (C1, C7, C10) -/

theorem roundNE_inf (neg b : Bool) (num den : Nat) (h : F64.roundNE neg num den = F64.inf b) :
    b = neg := by
  unfold F64.roundNE at h
  split_ifs at h
  cases h
  rfl

theorem parseFloat_cases (cap : List Char) :
    (ParseFloat cap).2 = none
      ∨ ParseFloat cap = (F64.zero, some NumError.errSyntax)
      ∨ ParseFloat cap = (F64.inf false, some NumError.errRange) := by
  unfold ParseFloat
  simp only
  split
  · exact Or.inr (Or.inl rfl)
  · split
    · exact Or.inr (Or.inl rfl)
    · split
      · rename_i neg hr
        have := roundNE_inf _ _ _ _ hr
        subst this
        exact Or.inr (Or.inr rfl)
      · exact Or.inl rfl

/-- Claim C1 (the code at a failing input). The raw output below contains exactly one
occurrence of the pattern, yet the sample sequence `main` builds from it has two
elements: the collection loop runs twice (lines 51-54 and lines 57-60). For every raw
output the sequence has twice as many elements as there are matches. -/
theorem floatTimes_recorded_twice :
    FindAllStringSubmatch "64 bytes from 10.0.0.1: icmp_seq=1 ttl=64 time=1.5 ms" = ["1.5".data]
    ∧ floatTimesOf "64 bytes from 10.0.0.1: icmp_seq=1 ttl=64 time=1.5 ms"
        = [F64.fin false 6755399441055744 (-52), F64.fin false 6755399441055744 (-52)]
    ∧ (floatTimesOf "64 bytes from 10.0.0.1: icmp_seq=1 ttl=64 time=1.5 ms").length = 2
    ∧ ∀ output : String,
        (floatTimesOf output).length = 2 * (FindAllStringSubmatch output).length := by
  refine ⟨by decide, by decide, by decide, ?_⟩
  intro output
  rw [floatTimesOf_eq]
  simp [onceOf]
  omega

/-- Claim C7 as stated fails: the first capture of `hugeOutput` is a digit string too large
for a float64; its conversion fails with `ErrRange`, and the sample recorded for it is
`+Inf`, not zero. -/
theorem range_failure_records_inf :
    FindAllStringSubmatch hugeOutput = [hugeDigits, "7".data]
    ∧ ParseFloat hugeDigits = (F64.inf false, some NumError.errRange)
    ∧ floatTimesOf hugeOutput
        = [F64.inf false, F64.fin false 7881299347898368 (-50),
           F64.inf false, F64.fin false 7881299347898368 (-50)]
    ∧ F64.inf false ≠ F64.zero := by
  decide

/-- Claim C7, amended. Every capture is converted and recorded, whether its conversion fails
or not (the recorded sequence is the one-pass sequence of all captures, twice over); a
conversion either succeeds, or fails with `ErrSyntax` and records zero, or fails with
`ErrRange` and records `+Inf`. The strings `1.2.3` and `.` are syntax failures. -/
theorem conversion_failure_lenient (output : String) :
    floatTimesOf output
        = (FindAllStringSubmatch output).map (fun cap => (ParseFloat cap).1)
          ++ (FindAllStringSubmatch output).map (fun cap => (ParseFloat cap).1)
    ∧ (∀ cap : List Char,
        (ParseFloat cap).2 = none
          ∨ ParseFloat cap = (F64.zero, some NumError.errSyntax)
          ∨ ParseFloat cap = (F64.inf false, some NumError.errRange))
    ∧ ParseFloat "1.2.3".data = (F64.zero, some NumError.errSyntax)
    ∧ ParseFloat ".".data = (F64.zero, some NumError.errSyntax) :=
  ⟨floatTimesOf_eq output, parseFloat_cases, by decide, by decide⟩

/-- Claim C10 as stated fails: on this output with one match the sequence handed to
`drawTable` has two elements, but its exact average equals the exact average of the
samples collected once. -/
theorem doubled_average_not_corrupted :
    FindAllStringSubmatch "64 bytes from 10.0.0.1: icmp_seq=1 ttl=64 time=10 ms" ≠ []
    ∧ ¬ ((floatTimesOf "64 bytes from 10.0.0.1: icmp_seq=1 ttl=64 time=10 ms").length
            = 2 * (FindAllStringSubmatch
                "64 bytes from 10.0.0.1: icmp_seq=1 ttl=64 time=10 ms").length
          ∧ exactAverage (floatTimesOf "64 bytes from 10.0.0.1: icmp_seq=1 ttl=64 time=10 ms")
              ≠ exactAverage (onceOf "64 bytes from 10.0.0.1: icmp_seq=1 ttl=64 time=10 ms")) := by
  refine ⟨by decide, ?_⟩
  rintro ⟨_, h⟩
  apply h
  rw [floatTimesOf_eq]
  exact exactAverage_double _

/-- Claim C10, amended. Collecting the matched samples twice doubles the sample count (the
sequence handed to `drawTable` is the one-pass sequence followed by itself), and the
average in exact arithmetic is the same as that of the samples collected once. -/
theorem doubled_count_same_average (output : String) :
    (floatTimesOf output).length = 2 * (FindAllStringSubmatch output).length
    ∧ floatTimesOf output = onceOf output ++ onceOf output
    ∧ exactAverage (floatTimesOf output) = exactAverage (onceOf output) := by
  refine ⟨?_, floatTimesOf_eq output, ?_⟩
  · rw [floatTimesOf_eq]; simp [onceOf]; omega
  · rw [floatTimesOf_eq]; exact exactAverage_double _

/-! ## Configuration (C3, C8) -/

theorem digitsVal_eq_some (ds : List Char) (acc v : Nat) :
    digitsVal ds acc = some v
      ↔ (∀ c ∈ ds, IsDecDigit c) ∧ v = ds.foldl (fun a c => a * 10 + (c.toNat - 48)) acc := by
  induction ds generalizing acc with
  | nil => simp [digitsVal, eq_comm]
  | cons c cs ih =>
    by_cases hc : '0' ≤ c ∧ c ≤ '9'
    · have : digitVal c = some (c.toNat - 48) := by simp [digitVal, hc]
      simp only [digitsVal, this, ih, List.mem_cons, List.foldl_cons, forall_eq_or_imp]
      constructor
      · rintro ⟨h1, h2⟩; exact ⟨⟨hc, h1⟩, h2⟩
      · rintro ⟨⟨_, h1⟩, h2⟩; exact ⟨h1, h2⟩
    · have : digitVal c = none := by simp only [digitVal, hc, if_false]
      simp only [digitsVal, this, List.mem_cons, forall_eq_or_imp]
      constructor
      · intro h; cases h
      · rintro ⟨⟨h, _⟩, _⟩; exact absurd h hc

theorem atoiDigits_eq_some (neg : Bool) (ds : List Char) (n : Int) :
    atoiDigits neg ds = some n
      ↔ ds ≠ [] ∧ (∀ c ∈ ds, IsDecDigit c)
          ∧ n = (if neg then -(decimalValue ds : Int) else (decimalValue ds : Int))
          ∧ minInt ≤ n ∧ n ≤ maxInt := by
  unfold atoiDigits
  cases ds with
  | nil => simp
  | cons a t =>
    simp only [List.isEmpty_cons, Bool.false_eq_true, if_false, ne_eq, reduceCtorEq,
      not_false_eq_true, true_and]
    cases hv : digitsVal (a :: t) 0 with
    | none =>
      simp only [false_iff, reduceCtorEq]
      rintro ⟨hd, _⟩
      have := (digitsVal_eq_some (a :: t) 0 _).2 ⟨hd, rfl⟩
      rw [hv] at this; cases this
    | some v =>
      obtain ⟨hd, hval⟩ := (digitsVal_eq_some _ _ _).1 hv
      have hv2 : v = decimalValue (a :: t) := hval
      subst hv2
      simp only
      constructor
      · intro h
        by_cases hr : minInt ≤ (if neg then -(decimalValue (a :: t) : Int)
              else (decimalValue (a :: t) : Int))
            ∧ (if neg then -(decimalValue (a :: t) : Int)
              else (decimalValue (a :: t) : Int)) ≤ maxInt
        · rw [if_pos hr] at h
          cases h
          exact ⟨hd, rfl, hr.1, hr.2⟩
        · rw [if_neg hr] at h
          cases h
      · rintro ⟨_, hn, h1, h2⟩
        subst hn
        rw [if_pos ⟨h1, h2⟩]

theorem not_digit_minus : ¬ IsDecDigit '-' := by unfold IsDecDigit; decide

theorem not_digit_plus : ¬ IsDecDigit '+' := by unfold IsDecDigit; decide

theorem atoi_eq_some (s : String) (n : Int) :
    Atoi s = some n ↔ DenotesInt s n ∧ minInt ≤ n ∧ n ≤ maxInt := by
  unfold Atoi
  split
  · rename_i ds hs
    rw [atoiDigits_eq_some]
    constructor
    · rintro ⟨h1, h2, h3, h4, h5⟩
      exact ⟨⟨['-'], ds, by simp [hs], by simp, h1, h2, by simpa using h3⟩, h4, h5⟩
    · rintro ⟨⟨sign, ds2, hsd, hsign, hne, hdig, hn⟩, h4, h5⟩
      rw [hs] at hsd
      rcases hsign with h | h | h <;> subst h
      · simp only [List.nil_append] at hsd
        subst hsd
        exact absurd (hdig '-' (by simp)) not_digit_minus
      · simp at hsd
      · simp at hsd
        subst hsd
        exact ⟨hne, hdig, by simpa using hn, h4, h5⟩
  · rename_i ds hs
    rw [atoiDigits_eq_some]
    constructor
    · rintro ⟨h1, h2, h3, h4, h5⟩
      exact ⟨⟨['+'], ds, by simp [hs], by simp, h1, h2, by simpa using h3⟩, h4, h5⟩
    · rintro ⟨⟨sign, ds2, hsd, hsign, hne, hdig, hn⟩, h4, h5⟩
      rw [hs] at hsd
      rcases hsign with h | h | h <;> subst h
      · simp only [List.nil_append] at hsd
        subst hsd
        exact absurd (hdig '+' (by simp)) not_digit_plus
      · simp at hsd
        subst hsd
        exact ⟨hne, hdig, by simpa using hn, h4, h5⟩
      · simp at hsd
  · rename_i ds hminus hplus
    rw [atoiDigits_eq_some]
    constructor
    · rintro ⟨h1, h2, h3, h4, h5⟩
      exact ⟨⟨[], s.data, by simp, by simp, h1, h2, by simpa using h3⟩, h4, h5⟩
    · rintro ⟨⟨sign, ds2, hsd, hsign, hne, hdig, hn⟩, h4, h5⟩
      rcases hsign with h | h | h <;> subst h
      · simp only [List.nil_append] at hsd
        rw [hsd]
        exact ⟨hne, hdig, by simpa using hn, h4, h5⟩
      · exact absurd hsd (by simpa using hplus ds2)
      · exact absurd hsd (by simpa using hminus ds2)

theorem atoi_eq_none (s : String) : Atoi s = none ↔ ¬ IsIntArg s := by
  constructor
  · rintro h ⟨n, hn⟩
    have := (atoi_eq_some s n).2 hn
    rw [h] at this; cases this
  · intro h
    cases hs : Atoi s with
    | none => rfl
    | some n => exact absurd ⟨n, (atoi_eq_some s n).1 hs⟩ h

theorem run_status (w : World) (cfg : ProbeConfig) (code : Nat) :
    (run w cfg).status ≠ Status.exited code := by
  unfold run
  simp only
  split
  · simp
  · rename_i st hst
    intro h
    simp only at h
    have hrep : ∀ (xs : List F64) (b : Bool),
        (reportStage w cfg xs b).status = Status.returned
          ∨ ∃ msg, (reportStage w cfg xs b).status = Status.panicked msg := by
      intro xs b
      unfold reportStage
      split
      · exact Or.inl rfl
      · split
        · exact drawTable_status _ _ _ _ _
        · exact Or.inl rfl
    rcases hrep (floatTimesOf (pingOutput w cfg)) (firstAdvisory cfg (pingOutput w cfg)).2
      with h1 | ⟨msg, h1⟩ <;> rw [h1] at h <;> cases h

/-- Claim C3. Configuration parsing over the argument list `args` (program name excluded).
With no argument the program exits with code 1. If the first argument is exactly `-d` and
at least three arguments are present, the second is parsed as an integer duration and the
third is the target: the program exits with code 1 exactly when the second argument is
not an integer (a decimal numeral with a Go `int` value), and otherwise runs with that
value and that target. In every other case the first argument is the target and the
duration is 60, also for `-d` followed by fewer than two further arguments. -/
theorem parseConfig_cases (w : World) (prog : String) (args : List String) :
    (args = [] → (main w prog args).status = Status.exited 1)
    ∧ (∀ a2 a3 rest, args = "-d" :: a2 :: a3 :: rest →
        ((main w prog args).status = Status.exited 1 ↔ ¬ IsIntArg a2)
        ∧ (∀ n : Int, DenotesInt a2 n → minInt ≤ n → n ≤ maxInt →
            parseConfig (prog :: args) = ConfigResult.ok { target := a3, durationSeconds := n }
            ∧ main w prog args = run w { target := a3, durationSeconds := n }))
    ∧ (∀ a1 rest, args = a1 :: rest → (a1 ≠ "-d" ∨ rest.length < 2) →
        parseConfig (prog :: args) = ConfigResult.ok { target := a1, durationSeconds := 60 }
        ∧ main w prog args = run w { target := a1, durationSeconds := 60 }
        ∧ (main w prog args).status ≠ Status.exited 1) := by
  refine ⟨?_, ?_, ?_⟩
  · intro h
    subst h
    rfl
  · intro a2 a3 rest h
    subst h
    have hp : parseConfig (prog :: "-d" :: a2 :: a3 :: rest) =
        match Atoi a2 with
        | none => ConfigResult.invalidDuration a2
        | some d => ConfigResult.ok { target := a3, durationSeconds := d } := by
      simp [parseConfig]
    constructor
    · rw [← atoi_eq_none]
      cases ha : Atoi a2 with
      | none =>
        rw [ha] at hp
        simp [main, hp]
      | some d =>
        rw [ha] at hp
        simp only [reduceCtorEq, iff_false]
        rw [main_of_config w prog _ _ hp]
        exact run_status w _ 1
    · intro n hn h1 h2
      have ha := (atoi_eq_some a2 n).2 ⟨hn, h1, h2⟩
      rw [ha] at hp
      exact ⟨hp, main_of_config w prog _ _ hp⟩
  · intro a1 rest h hor
    subst h
    have hp : parseConfig (prog :: a1 :: rest)
        = ConfigResult.ok { target := a1, durationSeconds := 60 } := by
      have hc : ¬ (a1 = "-d" ∧ 3 < rest.length + 1 + 1) := by
        rintro ⟨h1, h2⟩
        rcases hor with h | h
        · exact h h1
        · omega
      simp [parseConfig, hc]
    refine ⟨hp, main_of_config w prog _ _ hp, ?_⟩
    rw [main_of_config w prog _ _ hp]
    exact run_status w _ 1

/-- Witness for C3: `-d 5 10.0.0.1` is accepted with duration 5, and `-d 10.0.0.1` is
accepted with target `-d` and duration 60. -/
theorem parseConfig_cases_witness :
    parseConfig ["nettools", "-d", "5", "10.0.0.1"]
        = ConfigResult.ok { target := "10.0.0.1", durationSeconds := 5 }
    ∧ parseConfig ["nettools", "-d", "10.0.0.1"]
        = ConfigResult.ok { target := "-d", durationSeconds := 60 } :=
  ⟨(((parseConfig_cases (quietWorld "") "nettools" ["-d", "5", "10.0.0.1"]).2.1
        "5" "10.0.0.1" [] rfl).2 5
        ⟨[], ['5'], rfl, Or.inl rfl, by decide, by unfold IsDecDigit; decide, by decide⟩
        (by decide) (by decide)).1,
   ((parseConfig_cases (quietWorld "") "nettools" ["-d", "10.0.0.1"]).2.2
        "-d" ["10.0.0.1"] rfl (Or.inr (by decide))).1⟩

/-- Claim C8 as stated fails: `-d 0 10.0.0.1` and `-d -5 10.0.0.1` are accepted (the run
does not exit with code 1) and give the durations 0 and -5, which reach the probe
invocation as `-c 0` and `-c -5`. -/
theorem duration_below_one_accepted :
    parseConfig ["nettools", "-d", "0", "10.0.0.1"]
        = ConfigResult.ok { target := "10.0.0.1", durationSeconds := 0 }
    ∧ (main (quietWorld "") "nettools" ["-d", "0", "10.0.0.1"]).status = Status.returned
    ∧ parseConfig ["nettools", "-d", "-5", "10.0.0.1"]
        = ConfigResult.ok { target := "10.0.0.1", durationSeconds := -5 }
    ∧ (main (quietWorld "") "nettools" ["-d", "-5", "10.0.0.1"]).status = Status.returned
    ∧ Itoa (-5) = "-5"
    ∧ ¬ ((1 : Int) ≤ 0) := by
  decide

/-- Claim C8, amended. For every argument list that configuration parsing accepts, the
duration is either the default 60, or the value of the decimal numeral given after `-d`;
it is a Go `int`, and no lower bound is enforced. -/
theorem accepted_duration (prog : String) (args : List String) (cfg : ProbeConfig)
    (h : parseConfig (prog :: args) = ConfigResult.ok cfg) :
    (cfg.durationSeconds = 60
      ∨ ∃ a2 a3 rest, args = "-d" :: a2 :: a3 :: rest ∧ cfg.target = a3
          ∧ DenotesInt a2 cfg.durationSeconds)
    ∧ minInt ≤ cfg.durationSeconds ∧ cfg.durationSeconds ≤ maxInt := by
  unfold parseConfig at h
  split_ifs at h with h1 h2
  · cases hs : Atoi ((prog :: args).getD 2 "") with
    | none => rw [hs] at h; cases h
    | some d =>
      rw [hs] at h
      simp only [ConfigResult.ok.injEq] at h
      subst h
      obtain ⟨hd, hlo, hhi⟩ := (atoi_eq_some _ _).1 hs
      refine ⟨Or.inr ?_, hlo, hhi⟩
      obtain ⟨h2a, h2b⟩ := h2
      match args, h2a, h2b, hd with
      | a1 :: a2 :: a3 :: rest, h2a, _, hd =>
        simp at h2a
        subst h2a
        exact ⟨a2, a3, rest, rfl, rfl, hd⟩
      | [], _, h2b, _ => simp at h2b
      | [_], _, h2b, _ => simp at h2b
      | [_, _], _, h2b, _ => simp at h2b
  · simp only [ConfigResult.ok.injEq] at h
    subst h
    exact ⟨Or.inl rfl, (by decide : minInt ≤ (60 : Int)), (by decide : (60 : Int) ≤ maxInt)⟩

/-- Witness for C8 (amended): the accepted list `-d 0 10.0.0.1`. -/
theorem accepted_duration_witness :
    ((0 : Int) = 60
      ∨ ∃ a2 a3 rest, ["-d", "0", "10.0.0.1"] = "-d" :: a2 :: a3 :: rest ∧ "10.0.0.1" = a3
          ∧ DenotesInt a2 0)
    ∧ minInt ≤ (0 : Int) ∧ (0 : Int) ≤ maxInt :=
  accepted_duration "nettools" ["-d", "0", "10.0.0.1"]
    { target := "10.0.0.1", durationSeconds := 0 } (by decide)

/-! ## The latency table (C4, C5) -/

theorem barOf_length (k : Nat) : (barOf k).length = barGlyph.length * k := by
  have h3 : barGlyph.data.length = 3 := by decide
  have hg : barGlyph.length = 3 := by decide
  rw [hg]
  unfold barOf
  rw [String.length_mk]
  induction k with
  | zero => rfl
  | succ n ih =>
    rw [List.replicate_succ, List.flatten_cons, List.length_append, ih, h3]
    omega

theorem repeatAlloc_nonneg (k : Nat) : 0 ≤ repeatAlloc barGlyph (k : Int) := by
  unfold repeatAlloc
  have hsz : (barGlyph.utf8ByteSize : Int) = 7 := by decide
  rw [hsz]
  split_ifs <;> omega

theorem barBytes_nonneg (t : F64) : 0 ≤ barBytes t := by
  unfold barBytes
  split
  · exact repeatAlloc_nonneg _
  · exact le_refl _

theorem totalBarBytes_nonneg (xs : List F64) : 0 ≤ totalBarBytes xs := by
  unfold totalBarBytes
  induction xs with
  | nil => simp
  | cons x xs ih =>
    simp only [List.map_cons, List.sum_cons]
    have := barBytes_nonneg x
    omega

theorem barCount_conv (conv : F64 → Int) (time : F64) (k : Nat) (h : barCount time = some k) :
    floatToInt conv (F64.div time (F64.ofInt 10)) = (k : Int)
      ∧ (barGlyph.utf8ByteSize : Int) * (k : Int) ≤ maxAlloc := by
  unfold barCount at h
  split at h
  · split at h
    · rename_i n hn
      split_ifs at h with hr
      cases h
      have hsz : (barGlyph.utf8ByteSize : Int) = 7 := by decide
      have hmax : maxInt = 9223372036854775807 := by decide
      have hmin : minInt = -9223372036854775808 := by decide
      have hal : maxAlloc = 281474976710656 := by decide
      rw [hsz, hal] at hr
      have hin : minInt ≤ n ∧ n ≤ maxInt := by
        rw [hmin, hmax]; omega
      have hk : ((n.toNat : Nat) : Int) = n := Int.toNat_of_nonneg hr.1
      refine ⟨?_, ?_⟩
      · unfold floatToInt
        rw [hn]
        simp only [hin, and_self, if_true]
        exact hk.symm
      · rw [hsz, hal, hk]; exact hr.2
    · cases h
  · cases h

theorem repeat_ok (avail : Int) (k : Nat)
    (h1 : (barGlyph.utf8ByteSize : Int) * (k : Int) ≤ maxAlloc)
    (h2 : repeatAlloc barGlyph (k : Int) ≤ avail) :
    Repeat avail barGlyph (k : Int) = Except.ok (barOf k) := by
  have hsz : (barGlyph.utf8ByteSize : Int) = 7 := by decide
  have hmax : maxInt = 9223372036854775807 := by decide
  have hal : maxAlloc = 281474976710656 := by decide
  unfold Repeat
  by_cases h0 : (k : Int) = 0
  · have : k = 0 := by omega
    subst this
    simp only [Nat.cast_zero, if_true]
    rfl
  · by_cases hone : (k : Int) = 1
    · have : k = 1 := by omega
      subst this
      simp only [Nat.cast_one, one_ne_zero, if_false, if_true]
      rfl
    · unfold repeatAlloc at h2
      rw [hsz] at h1 h2
      rw [hal] at h1
      simp only [h0, hone, or_self, if_false] at h2
      have c1 : ¬ (k : Int) < 0 := by omega
      have c2 : ¬ maxInt < (barGlyph.utf8ByteSize : Int) * (k : Int) := by
        rw [hsz, hmax]; omega
      have c3 : ¬ maxAlloc < (barGlyph.utf8ByteSize : Int) * (k : Int) := by
        rw [hsz, hal]; omega
      have c4 : ¬ avail < (barGlyph.utf8ByteSize : Int) * (k : Int) := by
        rw [hsz]; omega
      simp only [h0, hone, c1, c2, c3, c4, if_false]
      rfl

theorem tableRows_ok (conv : F64 → Int) (xs : List F64) (avail : Int)
    (hfit : BarsFit avail xs) (i : Nat) :
    ∃ rows, tableRows conv avail i xs = Except.ok rows
      ∧ rows.length = xs.length
      ∧ ∀ j t, xs.get? j = some t →
          ∃ k row, barCount t = some k ∧ rows.get? j = some row
            ∧ row.cells = [Itoa ((i + j : Nat) + 1), fmtFixed2 t ++ " ms", barOf k]
            ∧ row.barColor = graphColors.get? ((i + j) % 2) := by
  induction xs generalizing avail i with
  | nil => exact ⟨[], rfl, rfl, by intro j t h; simp at h⟩
  | cons x xs ih =>
    obtain ⟨hall, hsum⟩ := hfit
    cases hk : barCount x with
    | none => exact absurd hk (hall x (by simp))
    | some k =>
      obtain ⟨hconv, hbound⟩ := barCount_conv conv x k hk
      have hbx : barBytes x = repeatAlloc barGlyph (k : Int) := by
        unfold barBytes; rw [hk]
      have hsum2 : repeatAlloc barGlyph (k : Int) + totalBarBytes xs ≤ avail := by
        have : totalBarBytes (x :: xs) = barBytes x + totalBarBytes xs := by
          simp [totalBarBytes]
        rw [this, hbx] at hsum
        exact hsum
      have htail := totalBarBytes_nonneg xs
      have hrep := repeat_ok avail k hbound (by omega)
      obtain ⟨rows, hrows, hlen, hget⟩ :=
        ih (avail - repeatAlloc barGlyph (k : Int))
          ⟨fun t ht => hall t (by simp [ht]), by omega⟩ (i + 1)
      refine ⟨{ cells := [Itoa ((i : Int) + 1), fmtFixed2 x ++ " ms", barOf k],
                barColor := graphColors.get? (i % 2) } :: rows, ?_, by simp [hlen], ?_⟩
      · simp only [tableRows, hconv, hrep, hrows]
      · intro j t hj
        cases j with
        | zero =>
          simp only [List.get?_cons_zero, Option.some.injEq] at hj
          subst hj
          exact ⟨k, _, hk, rfl, by simp, by simp⟩
        | succ j =>
          simp only [List.get?_cons_succ] at hj
          obtain ⟨k2, row, h1, h2, h3, h4⟩ := hget j t hj
          refine ⟨k2, row, h1, by simpa using h2, ?_, ?_⟩
          · rw [h3]; congr 2; push_cast; ring_nf
          · rw [h4]; congr 2; omega

theorem drawTable_ok (conv : F64 → Int) (avail : Int) (xs : List F64) (ip : String) (d : Int)
    (rows : List Row) (h : tableRows conv avail 0 xs = Except.ok rows) :
    drawTable conv avail xs ip d =
      { events :=
          [Event.enterDrawTable xs,
           Event.render ["Ping number", "Response Time (ms)", "Graph"] rows,
           Event.println [Arg.str "Average response time for", Arg.str ip, Arg.str "over",
             Arg.int d, Arg.str "seconds:", Arg.float (average xs), Arg.str "ms"]]
          ++ (if F64.gt (average xs) (F64.ofInt 200) then [highAdvisory] else []),
        status := Status.returned } := by
  unfold drawTable
  rw [h]

/-- Claim C5 as stated fails, in two ways. First, not every non-negative latency gets a
row: `hugeLatency` (1e20 ms) is finite and non-negative, the floor of its tenth is 10^19,
which no `int` holds, and on amd64 and on arm64 `drawTable` panics in `strings.Repeat` and
renders no table; for `largeLatency` (1e16 ms) the bar would take 7 * 10^15 bytes, above
`maxAlloc`, and the run ends in `makeslice`. Second, the bar of a 95.0 ms sample is 9
repetitions of the string literal of line 173, which has 3 characters (7 bytes): its
length is 27 characters (63 bytes), not 9. -/
theorem bar_rows_fail :
    hugeLatency = F64.fin false 6103515625000000 14
    ∧ F64.trunc (F64.div hugeLatency (F64.ofInt 10)) = some (10 ^ 19)
    ∧ ¬ ((10 : Int) ^ 19 ≤ maxInt)
    ∧ drawTable amd64Conv (2 ^ 33) [hugeLatency] "10.0.0.1" 60
        = { events := [Event.enterDrawTable [hugeLatency]],
            status := Status.panicked "strings: negative Repeat count" }
    ∧ drawTable arm64Conv (2 ^ 33) [hugeLatency] "10.0.0.1" 60
        = { events := [Event.enterDrawTable [hugeLatency]],
            status := Status.panicked "strings: Repeat output length overflow" }
    ∧ F64.trunc (F64.div largeLatency (F64.ofInt 10)) = some (10 ^ 15)
    ∧ drawTable amd64Conv (2 ^ 62) [largeLatency] "10.0.0.1" 60
        = { events := [Event.enterDrawTable [largeLatency]],
            status := Status.panicked "runtime error: makeslice: len out of range" }
    ∧ Event.render ["Ping number", "Response Time (ms)", "Graph"]
          [{ cells := ["1", "95.00 ms", barOf 9], barColor := some Color.blue }]
        ∈ (drawTable amd64Conv (2 ^ 33) [(ParseFloat "95.0".data).1] "10.0.0.1" 60).events
    ∧ (barOf 9).length = 27
    ∧ (barOf 9).utf8ByteSize = 63
    ∧ (barOf 9).length ≠ 9 := by
  decide

/-- Claim C5, amended. For every sample sequence whose bars can be built (each latency is
finite and not negative, the floor `n` of the float64 quotient `latency / 10` gives a bar
of `7 * n` bytes no longer than `maxAlloc`, and the bars together fit in the memory
available), `drawTable` renders a table with one row per sample in sequence order; the row
of the sample at 0-based index `j` carries the ordinal `j + 1`, the latency formatted with
`%.2f ms`, and a bar of exactly `n` repetitions of the bar glyph literal, that is of
`3 * n` characters. The bar of 95.0 has 9 repetitions and length 27; the bar of 9.9 has
length 0. -/
theorem table_rows_bars (conv : F64 → Int) (avail : Int) (xs : List F64) (ip : String)
    (d : Int) (hfit : BarsFit avail xs) :
    (∃ rows,
      Event.render ["Ping number", "Response Time (ms)", "Graph"] rows
          ∈ (drawTable conv avail xs ip d).events
      ∧ rows.length = xs.length
      ∧ ∀ j t, xs.get? j = some t →
          ∃ k row, barCount t = some k ∧ rows.get? j = some row
            ∧ row.cells = [Itoa ((j : Nat) + 1), fmtFixed2 t ++ " ms", barOf k]
            ∧ (barOf k).length = 3 * k)
    ∧ barGlyph.length = 3
    ∧ barCount (ParseFloat "95.0".data).1 = some 9
    ∧ (barOf 9).length = 27
    ∧ barCount (ParseFloat "9.9".data).1 = some 0
    ∧ (barOf 0).length = 0 := by
  refine ⟨?_, by decide, by decide, by decide, by decide, by decide⟩
  obtain ⟨rows, hrows, hlen, hget⟩ := tableRows_ok conv xs avail hfit 0
  refine ⟨rows, ?_, hlen, ?_⟩
  · rw [drawTable_ok conv avail xs ip d rows hrows]
    simp
  · intro j t hj
    obtain ⟨k, row, h1, h2, h3, _⟩ := hget j t hj
    refine ⟨k, row, h1, h2, by simpa using h3, ?_⟩
    rw [barOf_length]
    have hg : barGlyph.length = 3 := by decide
    rw [hg]

theorem barsFit_samples :
    BarsFit (2 ^ 33) [(ParseFloat "95.0".data).1, (ParseFloat "9.9".data).1] := by
  refine ⟨by decide, ?_⟩
  have : totalBarBytes [(ParseFloat "95.0".data).1, (ParseFloat "9.9".data).1] = 63 := by
    decide
  rw [this]
  decide

/-- Witness for C5 (amended): the table of the two samples 95.0 and 9.9. -/
theorem table_rows_bars_witness :
    (∃ rows,
      Event.render ["Ping number", "Response Time (ms)", "Graph"] rows
          ∈ (drawTable amd64Conv (2 ^ 33)
              [(ParseFloat "95.0".data).1, (ParseFloat "9.9".data).1] "10.0.0.1" 60).events
      ∧ rows.length = [(ParseFloat "95.0".data).1, (ParseFloat "9.9".data).1].length
      ∧ ∀ j t, [(ParseFloat "95.0".data).1, (ParseFloat "9.9".data).1].get? j = some t →
          ∃ k row, barCount t = some k ∧ rows.get? j = some row
            ∧ row.cells = [Itoa ((j : Nat) + 1), fmtFixed2 t ++ " ms", barOf k]
            ∧ (barOf k).length = 3 * k)
    ∧ barGlyph.length = 3
    ∧ barCount (ParseFloat "95.0".data).1 = some 9
    ∧ (barOf 9).length = 27
    ∧ barCount (ParseFloat "9.9".data).1 = some 0
    ∧ (barOf 0).length = 0 :=
  table_rows_bars amd64Conv (2 ^ 33) [(ParseFloat "95.0".data).1, (ParseFloat "9.9".data).1]
    "10.0.0.1" 60 barsFit_samples

/-- Claim C4 as stated fails: for the one-sample sequences `[hugeLatency]` (1e20 ms) and
`[largeLatency]` (1e16 ms) the average is above 200, yet `drawTable` ends in the row loop
(line 173) before the averaging step and prints no advisory: `strings.Repeat` panics on
the out-of-range count on amd64 and on arm64, and for 1e16 ms the bar of 7 * 10^15 bytes
is above `maxAlloc`. -/
theorem huge_latency_no_advisory :
    F64.gt (average [hugeLatency]) (F64.ofInt 200) = true
    ∧ highAdvisory ∉ (drawTable amd64Conv (2 ^ 33) [hugeLatency] "10.0.0.1" 60).events
    ∧ (drawTable amd64Conv (2 ^ 33) [hugeLatency] "10.0.0.1" 60).status
        = Status.panicked "strings: negative Repeat count"
    ∧ highAdvisory ∉ (drawTable arm64Conv (2 ^ 33) [hugeLatency] "10.0.0.1" 60).events
    ∧ (drawTable arm64Conv (2 ^ 33) [hugeLatency] "10.0.0.1" 60).status
        = Status.panicked "strings: Repeat output length overflow"
    ∧ F64.gt (average [largeLatency]) (F64.ofInt 200) = true
    ∧ highAdvisory ∉ (drawTable amd64Conv (2 ^ 62) [largeLatency] "10.0.0.1" 60).events
    ∧ (drawTable amd64Conv (2 ^ 62) [largeLatency] "10.0.0.1" 60).status
        = Status.panicked "runtime error: makeslice: len out of range" := by
  decide

/-- Claim C4, amended. For every sample sequence whose bars can be built (each latency is
finite and not negative, its bar is no longer than `maxAlloc` bytes, and the bars together
fit in the memory available, so that the row loop completes), `drawTable` returns, prints
the average `total / float64(len)` where `total` is the left-to-right float64 sum from
zero, and prints the high-latency advisory if and only if that average is greater than
200. For `[10, 20, 30]` the average is 20 and there is no advisory, for `[250]` it is 250
and the advisory is printed, and an average of exactly 200 prints no advisory. -/
theorem average_and_advisory (conv : F64 → Int) (avail : Int) (xs : List F64) (ip : String)
    (d : Int) (hfit : BarsFit avail xs) :
    (drawTable conv avail xs ip d).status = Status.returned
    ∧ Event.println [Arg.str "Average response time for", Arg.str ip, Arg.str "over",
        Arg.int d, Arg.str "seconds:",
        Arg.float (F64.div (xs.foldl F64.add F64.zero) (F64.ofInt xs.length)), Arg.str "ms"]
        ∈ (drawTable conv avail xs ip d).events
    ∧ (highAdvisory ∈ (drawTable conv avail xs ip d).events
        ↔ F64.gt (F64.div (xs.foldl F64.add F64.zero) (F64.ofInt xs.length)) (F64.ofInt 200)
            = true)
    ∧ (average [F64.ofInt 10, F64.ofInt 20, F64.ofInt 30] = F64.ofInt 20
        ∧ F64.gt (F64.ofInt 20) (F64.ofInt 200) = false)
    ∧ (average [F64.ofInt 250] = F64.ofInt 250
        ∧ F64.gt (F64.ofInt 250) (F64.ofInt 200) = true)
    ∧ (average [F64.ofInt 200] = F64.ofInt 200
        ∧ F64.gt (F64.ofInt 200) (F64.ofInt 200) = false) := by
  obtain ⟨rows, hrows, _, _⟩ := tableRows_ok conv xs avail hfit 0
  refine ⟨?_, ?_, ?_, by decide, by decide, by decide⟩
  · rw [drawTable_ok conv avail xs ip d rows hrows]
  · rw [drawTable_ok conv avail xs ip d rows hrows]
    simp [average, total]
  · rw [drawTable_ok conv avail xs ip d rows hrows]
    by_cases hg : F64.gt (average xs) (F64.ofInt 200) = true
    · have hg2 := hg
      unfold average total at hg2
      simp [hg, hg2]
    · have hg2 := hg
      unfold average total at hg2
      simp [hg, hg2, highAdvisory]

theorem barsFit_three : BarsFit (2 ^ 33) [F64.ofInt 10, F64.ofInt 20, F64.ofInt 30] := by
  refine ⟨by decide, ?_⟩
  have : totalBarBytes [F64.ofInt 10, F64.ofInt 20, F64.ofInt 30] = 35 := by decide
  rw [this]
  decide

theorem barsFit_one : BarsFit (2 ^ 33) [F64.ofInt 250] := by
  refine ⟨by decide, ?_⟩
  have : totalBarBytes [F64.ofInt 250] = 175 := by decide
  rw [this]
  decide

/-- Witness for C4 (amended): the sample sequences `[10, 20, 30]` and `[250]`. -/
theorem average_and_advisory_witness :
    highAdvisory ∉ (drawTable amd64Conv (2 ^ 33) [F64.ofInt 10, F64.ofInt 20, F64.ofInt 30]
        "10.0.0.1" 60).events
    ∧ highAdvisory ∈ (drawTable amd64Conv (2 ^ 33) [F64.ofInt 250] "10.0.0.1" 60).events :=
  ⟨fun h => absurd
      ((average_and_advisory amd64Conv (2 ^ 33) [F64.ofInt 10, F64.ofInt 20, F64.ofInt 30]
        "10.0.0.1" 60 barsFit_three).2.2.1.1 h) (by decide),
   (average_and_advisory amd64Conv (2 ^ 33) [F64.ofInt 250] "10.0.0.1" 60
      barsFit_one).2.2.1.2 (by decide)⟩

/-! ## The port tables (C6) -/

theorem ms_cell_ne (s : String) : s ++ " ms" ≠ "Unable to connect" := by
  intro h
  have h1 := congrArg String.data h
  have h2 := congrArg List.getLast? h1
  simp at h2

theorem connTimeCell_unable (w : World) (host : String) (port : Int) :
    connTimeCell w host port = "Unable to connect" ↔ measureTCPConnTime w host port = none := by
  unfold connTimeCell
  cases measureTCPConnTime w host port with
  | none => simp
  | some connTime => simpa using ms_cell_ne _

theorem reportStage_last (w : World) (cfg : ProbeConfig) (xs : List F64) (b : Bool) :
    (reportStage w cfg xs b).status = Status.returned
      ∨ ∃ ys, (reportStage w cfg xs b).events = [Event.enterDrawTable ys] := by
  unfold reportStage
  split
  · exact Or.inl rfl
  · split
    · unfold drawTable
      split
      · exact Or.inr ⟨_, rfl⟩
      · exact Or.inl rfl
    · exact Or.inl rfl

theorem run_shape (w : World) (cfg : ProbeConfig) :
    ((reportStage w cfg (floatTimesOf (pingOutput w cfg))
          (firstAdvisory cfg (pingOutput w cfg)).2).status = Status.returned
      ∧ run w cfg = Outcome.mk
          ([Event.printf "The ping will run for %d seconds...\n" [Arg.int cfg.durationSeconds]]
            ++ (firstAdvisory cfg (pingOutput w cfg)).1 ++ resolveStage w cfg.target
            ++ (reportStage w cfg (floatTimesOf (pingOutput w cfg))
                  (firstAdvisory cfg (pingOutput w cfg)).2).events
            ++ portStage w cfg.target) Status.returned)
    ∨ ((reportStage w cfg (floatTimesOf (pingOutput w cfg))
          (firstAdvisory cfg (pingOutput w cfg)).2).status ≠ Status.returned
      ∧ run w cfg = Outcome.mk
          ([Event.printf "The ping will run for %d seconds...\n" [Arg.int cfg.durationSeconds]]
            ++ (firstAdvisory cfg (pingOutput w cfg)).1 ++ resolveStage w cfg.target
            ++ (reportStage w cfg (floatTimesOf (pingOutput w cfg))
                  (firstAdvisory cfg (pingOutput w cfg)).2).events)
          (reportStage w cfg (floatTimesOf (pingOutput w cfg))
            (firstAdvisory cfg (pingOutput w cfg)).2).status) := by
  unfold run
  simp only
  split
  · rename_i h
    exact Or.inl ⟨h, rfl⟩
  · rename_i h
    exact Or.inr ⟨h, rfl⟩

theorem run_reaches_ports (w : World) (cfg : ProbeConfig) :
    (run w cfg).status = Status.returned
      ↔ ∃ pre, (run w cfg).events = pre ++ portStage w cfg.target := by
  rcases run_shape w cfg with ⟨_, hrun⟩ | ⟨hne, hrun⟩
  · rw [hrun]
    exact ⟨fun _ => ⟨_, rfl⟩, fun _ => rfl⟩
  · rw [hrun]
    constructor
    · intro h; exact absurd h hne
    · rintro ⟨pre, hpre⟩
      exfalso
      rcases reportStage_last w cfg (floatTimesOf (pingOutput w cfg))
          (firstAdvisory cfg (pingOutput w cfg)).2 with hret | ⟨ys, hys⟩
      · exact hne hret
      · simp only [hys] at hpre
        have h2 := congrArg List.getLast? hpre
        rw [List.getLast?_append, List.getLast?_append] at h2
        simp [portStage] at h2

theorem portRows_eq (w : World) (host : String) :
    portRows w host =
      ports.map (fun port =>
        { cells := [Itoa port,
            if isPortOpen w host port then "Open/Responded" else "No Response"],
          barColor := none }) := by
  simp [portRows, portStatus, ports, mapGet, mapSet, List.filter, List.find?]

/-- Claim C6. Whatever the per-port probes answer, the port-status table and the
port-latency table each have exactly four rows, for the ports 22, 443, 80, 5432 in that
order; the status cell of a port is `Open/Responded` when `isPortOpen` returned true for
it and `No Response` otherwise, the latency cell is `Unable to connect` exactly when
`measureTCPConnTime` returned an error and the `%.2f ms` rendering of the connect time in
milliseconds otherwise; and every run of `main` that reaches the port section renders
both tables in full. -/
theorem port_tables (w : World) (host : String) :
    portStage w host =
      [Event.println [Arg.str "Port Check Results:"],
       Event.render ["Port", "Status"]
         ([22, 443, 80, 5432].map (fun port : Int =>
           { cells := [Itoa port,
               if isPortOpen w host port then "Open/Responded" else "No Response"],
             barColor := none })),
       Event.println [],
       Event.println [Arg.str "TCP Connection Time Results (Latency with 5 Second Count):"],
       Event.render ["Port", "Latency (ms)"]
         ([22, 443, 80, 5432].map (fun port : Int =>
           { cells := [Itoa port,
               match measureTCPConnTime w host port with
               | none => "Unable to connect"
               | some connTime =>
                 fmtFixed2 (F64.mul (durationSeconds connTime) (F64.ofInt 1000)) ++ " ms"],
             barColor := none })),
       Event.println []]
    ∧ ([22, 443, 80, 5432] : List Int).map Itoa = ["22", "443", "80", "5432"]
    ∧ (∀ port : Int,
        ((if isPortOpen w host port then "Open/Responded" else "No Response")
            = "Open/Responded" ↔ isPortOpen w host port = true)
        ∧ ((match measureTCPConnTime w host port with
            | none => "Unable to connect"
            | some connTime =>
              fmtFixed2 (F64.mul (durationSeconds connTime) (F64.ofInt 1000)) ++ " ms")
            = "Unable to connect" ↔ measureTCPConnTime w host port = none))
    ∧ (∀ cfg : ProbeConfig,
        (run w cfg).status = Status.returned
          ↔ ∃ pre, (run w cfg).events = pre ++ portStage w cfg.target) := by
  refine ⟨?_, by decide, ?_, ?_⟩
  · unfold portStage
    rw [portRows_eq]
    rfl
  · intro port
    constructor
    · cases isPortOpen w host port <;> simp
    · exact connTimeCell_unable w host port
  · intro cfg
    exact run_reaches_ports w cfg

end NetTools
